import Mathlib

/-!
Verification of the BESS `Queue` module (`src/core/modules/queue.cc`).

The module buffers packet handles in an `llring` bounded FIFO ring buffer.
`llring.h` lives outside `src/`, so the ring-buffer operations are modelled
from the spec (section 4.1); every definition whose doc comment starts with
`Modelled from the spec:` is such a model.  All other definitions are direct
embeddings of the C++ in `queue.cc`.  Freeing a packet (`snb_free`,
`snb_free_bulk`) is modelled by returning the list of freed handles, and the
hand-off to the downstream module (`run_next_module`) by returning the batch
passed to it (`none` when no call is made).  `uint64_t` arithmetic is taken
modulo `2 ^ 64`.
-/

namespace BessQueue

/-- A packet-buffer handle (`struct snbuf`). `id` distinguishes handles and
`len` is the total payload length in bytes returned by `snb_total_len`. -/
structure Snbuf where
  id : Nat
  len : Nat
deriving DecidableEq, Repr

/-- Modelled from the spec: `snb_total_len` reads a packet's total payload
length in bytes (the packet structure is not part of `src/`). -/
def snb_total_len (p : Snbuf) : Nat := p.len

/-- Modelled from the spec: the `llring` bounded FIFO ring buffer
(`src/core/kmod/llring.h` is not part of `src/`).  `slots` is the capacity;
`data` lists the buffered handles, oldest first. -/
structure LLRing where
  slots : Nat
  data : List Snbuf
deriving DecidableEq, Repr

/-- Modelled from the spec: `llring_init` yields an empty ring with the given
number of slots. -/
def llring_init (slots : Nat) : LLRing := { slots := slots, data := [] }

/-- Modelled from the spec: `llring_count` is the current occupancy. -/
def llring_count (r : LLRing) : Nat := r.data.length

/-- Modelled from the spec: `llring_mp_enqueue_burst` accepts as many handles
from the front of the batch as fit in the remaining free slots, in order, and
returns the new ring together with the number accepted. -/
def llring_mp_enqueue_burst (r : LLRing) (pkts : List Snbuf) : LLRing × Nat :=
  let accepted := min pkts.length (r.slots - r.data.length)
  ({ r with data := r.data ++ pkts.take accepted }, accepted)

/-- Modelled from the spec: `llring_sc_dequeue_burst` removes up to `burst`
handles from the front of the ring, in FIFO order. -/
def llring_sc_dequeue_burst (r : LLRing) (burst : Nat) : LLRing × List Snbuf :=
  ({ r with data := r.data.drop burst }, r.data.take burst)

/-- Modelled from the spec: `llring_sc_dequeue` removes the oldest handle;
it fails (nonzero return in C) on an empty ring. -/
def llring_sc_dequeue (r : LLRing) : Option (LLRing × Snbuf) :=
  match r.data with
  | [] => none
  | p :: rest => some ({ r with data := rest }, p)

/-- Modelled from the spec: `llring_sp_enqueue` appends one handle, or returns
`none` (`-LLRING_ERR_NOBUF`) when the ring is full. -/
def llring_sp_enqueue (r : LLRing) (p : Snbuf) : Option LLRing :=
  if r.data.length < r.slots then some { r with data := r.data ++ [p] } else none

/-- The private state of the `Queue` module (queue.cc lines 29-31): the active
ring (`none` models a null `queue_` pointer), the prefetch flag, and the burst
size. -/
structure QueueModule where
  queue_ : Option LLRing
  prefetch_ : Bool
  burst_ : Nat
deriving DecidableEq, Repr

/-- The state established by the constructor `Queue()` (queue.cc line 12):
all members value-initialized, in particular `queue_` is the null pointer. -/
def QueueCtor : QueueModule := { queue_ := none, prefetch_ := false, burst_ := 0 }

/-- Modelled from the spec: `MAX_PKT_BURST`, the platform's maximum burst
(its concrete value is not in `src/`; no claim depends on it). -/
def MAX_PKT_BURST : Nat := 32

/-- `DEFAULT_QUEUE_SIZE` (queue.cc line 5). -/
def DEFAULT_QUEUE_SIZE : Nat := 1024

/-- The per-packet overhead constant `pkt_overhead` (queue.cc line 148). -/
def pkt_overhead : Nat := 24

/-- Modulus of `uint64_t` arithmetic. -/
def U64 : Nat := 2 ^ 64

/-- `ENOMEM` errno value. -/
def ENOMEM : Int := 12

/-- `EINVAL` errno value. -/
def EINVAL : Int := 22

/-- `struct task_result` (both fields are `uint64_t`). -/
structure TaskResult where
  packets : Nat
  bits : Nat
deriving DecidableEq, Repr

/-- An `snobj` error object as produced by `snobj_err(code, msg)`. -/
structure SnErr where
  code : Int
  msg : String
deriving DecidableEq, Repr

/-- `snobj_errno(e)`: an error object carrying just the errno code. -/
def snobj_errno (e : Int) : SnErr := { code := e, msg := "strerror" }

/-- The fragment of an `snobj` command argument the commands inspect: an
integer argument carries the `uint64_t` value read by `snobj_uint_get`;
any other type only matters through being non-integer. -/
inductive Snobj where
  | int (val : Nat)
  | nonInt
deriving DecidableEq, Repr

/-- The migration loop of `Queue::Resize` (queue.cc lines 59-70): dequeue the
old ring front to back (`llring_sc_dequeue` in FIFO order), `sp`-enqueue each
handle into the new ring, and free (`snb_free`) each handle the new ring
refuses.  Returns the final new ring and the freed handles in order. -/
def migrate : List Snbuf → LLRing → LLRing × List Snbuf
  | [], newq => (newq, [])
  | p :: rest, newq =>
    match llring_sp_enqueue newq p with
    | some newq2 => migrate rest newq2
    | none =>
      let r := migrate rest newq
      (r.1, p :: r.2)

/-- `Queue::Resize` (queue.cc lines 39-75).  `allocOk` models the outcome of
`mem_alloc` and `initOk` that of `llring_init` (neither function is in
`src/`).  Returns the module state at return, the return code, and the handles
freed during migration; on failure the state is returned before `queue_` is
touched. -/
def Queue.Resize (allocOk initOk : Bool) (m : QueueModule) (slots : Nat) :
    QueueModule × Int × List Snbuf :=
  if !allocOk then (m, -ENOMEM, [])
  else if !initOk then (m, -EINVAL, [])
  else
    match m.queue_ with
    | none => ({ m with queue_ := some (llring_init slots) }, 0, [])
    | some old =>
      let r := migrate old.data (llring_init slots)
      ({ m with queue_ := some r.1 }, 0, r.2)

/-- `Queue::ProcessBatch` (queue.cc lines 133-140): enqueue the batch into the
active ring; `snb_free_bulk` the rejected suffix (positions `queued ..`).
Returns the new ring and the freed handles. -/
def Queue.ProcessBatch (r : LLRing) (batch : List Snbuf) : LLRing × List Snbuf :=
  let res := llring_mp_enqueue_burst r batch
  if res.2 < batch.length then (res.1, batch.drop res.2) else (res.1, [])

/-- The byte-summing loop of `RunTask` with `prefetch_` set (queue.cc lines
159-163): folds each packet's `snb_total_len` into the `uint64_t` accumulator;
the `rte_prefetch0` cache hint has no functional content in the model. -/
def sum_bytes_prefetch : List Snbuf → Nat → Nat
  | [], acc => acc
  | p :: rest, acc => sum_bytes_prefetch rest ((acc + snb_total_len p) % U64)

/-- The byte-summing loop of `RunTask` with `prefetch_` clear (queue.cc lines
165-166). -/
def sum_bytes_plain : List Snbuf → Nat → Nat
  | [], acc => acc
  | p :: rest, acc => sum_bytes_plain rest ((acc + snb_total_len p) % U64)

/-- `Queue::RunTask` (queue.cc lines 143-174).  Returns the ring after the
dequeue, the `task_result`, and the batch handed to `run_next_module`
(`none` when the hand-off is skipped because the dequeued count is zero). -/
def Queue.RunTask (r : LLRing) (prefetch : Bool) (burst : Nat) :
    LLRing × TaskResult × Option (List Snbuf) :=
  let dq := llring_sc_dequeue_burst r burst
  let pkts := dq.2
  let cnt := pkts.length
  let handoff : Option (List Snbuf) := if 0 < cnt then some pkts else none
  let total_bytes := if prefetch then sum_bytes_prefetch pkts 0 else sum_bytes_plain pkts 0
  (dq.1,
   { packets := cnt,
     bits := (((total_bytes + (cnt * pkt_overhead) % U64) % U64) * 8) % U64 },
   handoff)

/-- `Queue::CommandSetBurst` (queue.cc lines 176-192). -/
def Queue.CommandSetBurst (m : QueueModule) (arg : Snobj) :
    QueueModule × Option SnErr :=
  match arg with
  | .nonInt => (m, some { code := EINVAL, msg := "burst must be an integer" })
  | .int val =>
    if val = 0 ∨ MAX_PKT_BURST < val then
      (m, some { code := EINVAL, msg := "burst size must be [1,32]" })
    else
      ({ m with burst_ := val }, none)

/-- `Queue::CommandSetSize` (queue.cc lines 194-218).  Returns the module
state at return, the handles freed by a shrinking resize, and the error
(`none` on success). -/
def Queue.CommandSetSize (allocOk initOk : Bool) (m : QueueModule) (arg : Snobj) :
    QueueModule × List Snbuf × Option SnErr :=
  match arg with
  | .nonInt => (m, [], some { code := EINVAL, msg := "argument must be an integer" })
  | .int val =>
    if val < 4 ∨ 16384 < val then
      (m, [], some { code := EINVAL, msg := "must be in [4, 16384]" })
    else if val &&& (val - 1) ≠ 0 then
      (m, [], some { code := EINVAL, msg := "must be a power of 2" })
    else
      let r := Queue.Resize allocOk initOk m val
      if r.2.1 ≠ 0 then (r.1, r.2.2, some (snobj_errno (-r.2.1)))
      else (r.1, r.2.2, none)

/-- `Queue::Init` (queue.cc lines 77-114).  `registerOk` models the outcome of
`register_task` (not in `src/`); `allocOk`/`initOk` as in `Resize`.
`burstArg`/`sizeArg` are the results of `snobj_eval(arg, "burst")` and
`snobj_eval(arg, "size")` and `prefetchFlag` that of
`snobj_eval_int(arg, "prefetch")`.  Returns the module state at return, the
handles freed by a shrinking resize, and the error (`none` on success). -/
def Queue.Init (registerOk allocOk initOk : Bool)
    (burstArg sizeArg : Option Snobj) (prefetchFlag : Bool) (m : QueueModule) :
    QueueModule × List Snbuf × Option SnErr :=
  let m1 := { m with burst_ := MAX_PKT_BURST }
  if !registerOk then (m1, [], some { code := ENOMEM, msg := "Task creation failed" })
  else
    let bstep :=
      match burstArg with
      | some t => Queue.CommandSetBurst m1 t
      | none => (m1, none)
    match bstep.2 with
    | some e => (bstep.1, [], some e)
    | none =>
      let sstep :=
        match sizeArg with
        | some t => Queue.CommandSetSize allocOk initOk bstep.1 t
        | none =>
          let r := Queue.Resize allocOk initOk bstep.1 DEFAULT_QUEUE_SIZE
          if r.2.1 ≠ 0 then (r.1, r.2.2, some (snobj_errno (-r.2.1)))
          else (r.1, r.2.2, none)
      match sstep.2.2 with
      | some e => (sstep.1, sstep.2.1, some e)
      | none =>
        let m3 := if prefetchFlag then { sstep.1 with prefetch_ := true } else sstep.1
        (m3, sstep.2.1, none)

/-- `Queue::Deinit` (queue.cc lines 116-124): drains `queue_`, freeing every
remaining handle, then frees the ring's storage.  It dereferences `queue_`
unconditionally; on a null `queue_` the very first `llring_sc_dequeue` is a
null-pointer dereference, modelled as `none` (undefined).  On a non-null ring
it returns the handles freed, in FIFO order. -/
def Queue.Deinit : Option LLRing → Option (List Snbuf)
  | none => none
  | some q => some q.data

/-- One operation of a sequential (quiescent-producer, single-consumer)
execution: a producer batch arriving at `ProcessBatch`, or one scheduler
invocation of `RunTask` with the given burst. -/
inductive Op where
  | enq (batch : List Snbuf)
  | run (burst : Nat)
deriving DecidableEq, Repr

/-- Accumulated history of a sequential execution: the active ring, the
concatenation of all handles accepted by the ring, the concatenation of all
handles dequeued by `RunTask`, and all handles freed by `ProcessBatch`. -/
structure Trace where
  ring : LLRing
  accepted : List Snbuf
  dequeued : List Snbuf
  freed : List Snbuf
deriving DecidableEq, Repr

/-- One step of the sequential execution. -/
def stepOp (t : Trace) : Op → Trace
  | .enq batch =>
    let r := Queue.ProcessBatch t.ring batch
    let q := (llring_mp_enqueue_burst t.ring batch).2
    { ring := r.1, accepted := t.accepted ++ batch.take q,
      dequeued := t.dequeued, freed := t.freed ++ r.2 }
  | .run burst =>
    let r := Queue.RunTask t.ring false burst
    { ring := r.1, accepted := t.accepted,
      dequeued := t.dequeued ++ (llring_sc_dequeue_burst t.ring burst).2,
      freed := t.freed }

/-- Run a sequence of operations starting from a fresh empty ring of the given
capacity. -/
def runTrace (cap : Nat) (ops : List Op) : Trace :=
  ops.foldl stepOp { ring := llring_init cap, accepted := [], dequeued := [], freed := [] }

/-! ## Helper lemmas -/

lemma U64_pos : 0 < U64 := pow_pos (by norm_num) 64

lemma sum_bytes_plain_spec (l : List Snbuf) :
    ∀ acc, acc < U64 → sum_bytes_plain l acc = (acc + (l.map snb_total_len).sum) % U64 := by
  induction l with
  | nil => intro acc h; simp [sum_bytes_plain, Nat.mod_eq_of_lt h]
  | cons p rest ih =>
    intro acc h
    simp only [sum_bytes_plain, List.map_cons, List.sum_cons]
    rw [ih ((acc + snb_total_len p) % U64) (Nat.mod_lt _ U64_pos), Nat.mod_add_mod,
      Nat.add_assoc]

lemma sum_bytes_prefetch_eq (l : List Snbuf) :
    ∀ acc, sum_bytes_prefetch l acc = sum_bytes_plain l acc := by
  induction l with
  | nil => intro acc; rfl
  | cons p rest ih => intro acc; simp [sum_bytes_prefetch, sum_bytes_plain, ih]

lemma migrate_spec (pkts : List Snbuf) :
    ∀ newq : LLRing,
      (migrate pkts newq).1.slots = newq.slots ∧
      (migrate pkts newq).1.data = newq.data ++ pkts.take (newq.slots - newq.data.length) ∧
      (migrate pkts newq).2 = pkts.drop (newq.slots - newq.data.length) := by
  induction pkts with
  | nil => intro newq; simp [migrate]
  | cons p rest ih =>
    intro newq
    by_cases h : newq.data.length < newq.slots
    · have hfree : newq.slots - newq.data.length = (newq.slots - (newq.data.length + 1)) + 1 := by
        omega
      simp only [migrate, llring_sp_enqueue, if_pos h]
      obtain ⟨h1, h2, h3⟩ := ih { newq with data := newq.data ++ [p] }
      refine ⟨h1, ?_, ?_⟩
      · rw [h2]
        simp only [List.length_append, List.length_cons, List.length_nil, Nat.zero_add, hfree,
          List.take_succ_cons, List.append_assoc, List.cons_append, List.nil_append]
      · rw [h3]
        simp only [List.length_append, List.length_cons, List.length_nil, Nat.zero_add, hfree,
          List.drop_succ_cons]
    · have hz : newq.slots - newq.data.length = 0 := by omega
      simp only [migrate, llring_sp_enqueue, if_neg h]
      obtain ⟨h1, h2, h3⟩ := ih newq
      refine ⟨h1, ?_, ?_⟩
      · rw [h2, hz]
        simp
      · rw [h3, hz]
        simp

/-- The sequential-execution invariant: the ring's capacity is unchanged, its
occupancy is bounded by the capacity, and the accepted handles are exactly the
dequeued handles followed by the handles still buffered. -/
def TraceInv (cap : Nat) (t : Trace) : Prop :=
  t.ring.slots = cap ∧ t.ring.data.length ≤ cap ∧
  t.accepted = t.dequeued ++ t.ring.data

lemma processBatch_fst (r : LLRing) (batch : List Snbuf) :
    (Queue.ProcessBatch r batch).1 = (llring_mp_enqueue_burst r batch).1 := by
  by_cases h : (llring_mp_enqueue_burst r batch).2 < batch.length <;>
    simp [Queue.ProcessBatch, h]

lemma runTask_fst (r : LLRing) (prefetch : Bool) (burst : Nat) :
    (Queue.RunTask r prefetch burst).1 = { r with data := r.data.drop burst } := rfl

lemma stepOp_inv (cap : Nat) (t : Trace) (op : Op) (h : TraceInv cap t) :
    TraceInv cap (stepOp t op) := by
  obtain ⟨hs, hl, ha⟩ := h
  cases op with
  | enq batch =>
    refine ⟨?_, ?_, ?_⟩
    · simpa [stepOp, processBatch_fst, llring_mp_enqueue_burst] using hs
    · simp only [stepOp, processBatch_fst, llring_mp_enqueue_burst, List.length_append,
        List.length_take]
      omega
    · simp only [stepOp, processBatch_fst, llring_mp_enqueue_burst, ha, List.append_assoc]
  | run burst =>
    refine ⟨?_, ?_, ?_⟩
    · simpa [stepOp, runTask_fst] using hs
    · simp only [stepOp, runTask_fst, List.length_drop]
      omega
    · simp only [stepOp, runTask_fst, llring_sc_dequeue_burst, ha, List.append_assoc,
        List.take_append_drop]

lemma foldl_inv (cap : Nat) :
    ∀ (ops : List Op) (t : Trace), TraceInv cap t → TraceInv cap (ops.foldl stepOp t) := by
  intro ops
  induction ops with
  | nil => intro t h; exact h
  | cons op rest ih => intro t h; exact ih (stepOp t op) (stepOp_inv cap t op h)

lemma runTrace_inv (cap : Nat) (ops : List Op) : TraceInv cap (runTrace cap ops) :=
  foldl_inv cap ops _ ⟨rfl, by simp [llring_init], by simp [llring_init]⟩

lemma and_bit (a b : Nat) (u v : Bool) :
    (2 * a + u.toNat) &&& (2 * b + v.toNat) = 2 * (a &&& b) + (u && v).toNat := by
  apply Nat.eq_of_testBit_eq
  intro i
  cases i with
  | zero =>
    have ea : ∀ n : Nat, (2 * n) % 2 = 0 := fun n => by omega
    have eb : ∀ n : Nat, (2 * n + 1) % 2 = 1 := fun n => by omega
    cases u <;> cases v <;>
      simp [Nat.testBit_and, Nat.testBit_zero, ea, eb]
  | succ j =>
    have h1 : (2 * a + u.toNat) / 2 = a := by cases u <;> simp <;> omega
    have h2 : (2 * b + v.toNat) / 2 = b := by cases v <;> simp <;> omega
    have h3 : (2 * (a &&& b) + (u && v).toNat) / 2 = a &&& b := by
      cases u <;> cases v <;> simp <;> omega
    rw [Nat.testBit_and, Nat.testBit_add_one, Nat.testBit_add_one, Nat.testBit_add_one,
      h1, h2, h3, Nat.testBit_and]

lemma and_self_pred (m : Nat) : (2 * m + 1) &&& (2 * m) = 2 * m := by
  have h := and_bit m m true false
  simpa [Nat.and_self] using h

lemma pow_of_and_pred_zero : ∀ n : Nat, 0 < n → n &&& (n - 1) = 0 → ∃ k, n = 2 ^ k := by
  intro n
  induction n using Nat.strong_induction_on with
  | _ n ih =>
    intro hpos hand
    rcases Nat.even_or_odd n with he | ho
    · obtain ⟨m, hm⟩ := he
      have hm2 : n = 2 * m := by omega
      have hmpos : 0 < m := by omega
      have hrep : n - 1 = 2 * (m - 1) + 1 := by omega
      have key : n &&& (n - 1) = 2 * (m &&& (m - 1)) := by
        calc n &&& (n - 1)
            = (2 * m + Bool.toNat false) &&& (2 * (m - 1) + Bool.toNat true) := by
              rw [hrep, hm2]; simp
          _ = 2 * (m &&& (m - 1)) + (false && true).toNat := and_bit m (m - 1) false true
          _ = 2 * (m &&& (m - 1)) := by simp
      have hz : m &&& (m - 1) = 0 := by omega
      obtain ⟨k, hk⟩ := ih m (by omega) hmpos hz
      exact ⟨k + 1, by rw [pow_succ]; omega⟩
    · obtain ⟨m, hm⟩ := ho
      rcases Nat.eq_zero_or_pos m with h0 | hmp
      · exact ⟨0, by omega⟩
      · exfalso
        have h1 : n - 1 = 2 * m := by omega
        have h2 : n &&& (n - 1) = 2 * m := by
          rw [h1, hm]
          exact and_self_pred m
        omega

/-! ## Claim theorems -/

/-- The ring of the spec's scenario: capacity 4 holding four 100-byte packets. -/
def scenarioRing : LLRing :=
  { slots := 4, data := [⟨0, 100⟩, ⟨1, 100⟩, ⟨2, 100⟩, ⟨3, 100⟩] }

/-- The spec's scenario batch: six 100-byte packets. -/
def batch6 : List Snbuf :=
  [⟨0, 100⟩, ⟨1, 100⟩, ⟨2, 100⟩, ⟨3, 100⟩, ⟨4, 100⟩, ⟨5, 100⟩]

/-- A module whose ring holds three packets, used to exercise a shrinking
resize. -/
def shrinkModule : QueueModule :=
  { queue_ := some { slots := 4, data := [⟨0, 1⟩, ⟨1, 2⟩, ⟨2, 3⟩] },
    prefetch_ := false, burst_ := 1 }

/-- C1: every invocation of RunTask that dequeues `cnt` packets with payload
lengths `len_1..len_cnt` returns packet_count = cnt and
bit_count = (len_1 + ... + len_cnt + cnt * 24) * 8, provided the uint64
arithmetic does not overflow. -/
theorem c1_runtask_stats (r : LLRing) (prefetch : Bool) (burst : Nat)
    (hnof : ((((llring_sc_dequeue_burst r burst).2.map snb_total_len).sum +
      (llring_sc_dequeue_burst r burst).2.length * pkt_overhead) * 8) < U64) :
    (Queue.RunTask r prefetch burst).2.1.packets =
      (llring_sc_dequeue_burst r burst).2.length ∧
    (Queue.RunTask r prefetch burst).2.1.bits =
      (((llring_sc_dequeue_burst r burst).2.map snb_total_len).sum +
        (llring_sc_dequeue_burst r burst).2.length * pkt_overhead) * 8 := by
  refine ⟨rfl, ?_⟩
  have hsum : (if prefetch then sum_bytes_prefetch ((llring_sc_dequeue_burst r burst).2) 0
      else sum_bytes_plain ((llring_sc_dequeue_burst r burst).2) 0) =
      (((llring_sc_dequeue_burst r burst).2.map snb_total_len).sum) % U64 := by
    have hp := sum_bytes_plain_spec ((llring_sc_dequeue_burst r burst).2) 0 U64_pos
    cases prefetch <;> simp [sum_bytes_prefetch_eq, hp]
  show (((if prefetch then sum_bytes_prefetch ((llring_sc_dequeue_burst r burst).2) 0
      else sum_bytes_plain ((llring_sc_dequeue_burst r burst).2) 0) +
      ((llring_sc_dequeue_burst r burst).2.length * pkt_overhead) % U64) % U64 * 8) % U64 = _
  rw [hsum, ← Nat.add_mod]
  have h88 : (8 : Nat) % U64 = 8 := Nat.mod_eq_of_lt (by norm_num [U64])
  have h8 : ((((llring_sc_dequeue_burst r burst).2.map snb_total_len).sum +
      (llring_sc_dequeue_burst r burst).2.length * pkt_overhead) % U64 * 8) % U64 =
      ((((llring_sc_dequeue_burst r burst).2.map snb_total_len).sum +
      (llring_sc_dequeue_burst r burst).2.length * pkt_overhead) * 8) % U64 := by
    conv_rhs => rw [Nat.mul_mod, h88]
  rw [h8]
  exact Nat.mod_eq_of_lt hnof

/-- C1 witness: the spec scenario — burst 4 on four 100-byte packets gives
packet_count 4 and bit_count 4 × (100 + 24) × 8 = 3968. -/
theorem c1_runtask_stats_witness :
    (Queue.RunTask scenarioRing false 4).2.1.packets = 4 ∧
    (Queue.RunTask scenarioRing false 4).2.1.bits = 3968 := by
  have h := c1_runtask_stats scenarioRing false 4 (by decide)
  exact ⟨h.1.trans (by decide), h.2.trans (by decide)⟩

/-- C2: enqueueing a batch of N handles into a ring with R < N free slots
accepts exactly the first R handles in order and ProcessBatch frees exactly
the suffix at positions R..N−1. -/
theorem c2_processbatch_overflow (r : LLRing) (batch : List Snbuf)
    (hlen : r.data.length ≤ r.slots)
    (hover : r.slots - r.data.length < batch.length) :
    (Queue.ProcessBatch r batch).1.data =
      r.data ++ batch.take (r.slots - r.data.length) ∧
    (Queue.ProcessBatch r batch).2 = batch.drop (r.slots - r.data.length) ∧
    (Queue.ProcessBatch r batch).2.length =
      batch.length - (r.slots - r.data.length) := by
  have ha : min batch.length (r.slots - r.data.length) = r.slots - r.data.length := by
    omega
  simp only [Queue.ProcessBatch, llring_mp_enqueue_burst, ha]
  rw [if_pos hover]
  exact ⟨rfl, rfl, by simp⟩

/-- C2 witness: capacity 4, empty ring, batch of 6 — the first 4 are accepted
and the last 2 are freed. -/
theorem c2_processbatch_overflow_witness :
    (llring_init 4).data.length ≤ (llring_init 4).slots ∧
    (llring_init 4).slots - (llring_init 4).data.length < batch6.length ∧
    (Queue.ProcessBatch (llring_init 4) batch6).2 =
      batch6.drop ((llring_init 4).slots - (llring_init 4).data.length) ∧
    (Queue.ProcessBatch (llring_init 4) batch6).2.length = 2 := by
  have h := c2_processbatch_overflow (llring_init 4) batch6 (by decide) (by decide)
  exact ⟨by decide, by decide, h.2.1, h.2.2.trans (by decide)⟩

/-- C3: a successful resize of a quiescent queue keeps the oldest
min(occupancy, new_capacity) handles in FIFO order and frees exactly the
newest occupancy − new_capacity handles (none when the new capacity holds
them all). -/
theorem c3_resize_migration (m : QueueModule) (old : LLRing) (slots : Nat)
    (hq : m.queue_ = some old) :
    (Queue.Resize true true m slots).2.1 = 0 ∧
    ∃ newq : LLRing, (Queue.Resize true true m slots).1.queue_ = some newq ∧
      newq.data = old.data.take slots ∧
      (Queue.Resize true true m slots).2.2 = old.data.drop slots ∧
      (old.data.length ≤ slots →
        newq.data = old.data ∧ (Queue.Resize true true m slots).2.2 = []) ∧
      (slots < old.data.length →
        (Queue.Resize true true m slots).2.2.length = old.data.length - slots) := by
  have hres : Queue.Resize true true m slots =
      ({ m with queue_ := some (migrate old.data (llring_init slots)).1 }, 0,
        (migrate old.data (llring_init slots)).2) := by
    simp [Queue.Resize, hq]
  obtain ⟨h1, h2, h3⟩ := migrate_spec old.data (llring_init slots)
  have hinit : (llring_init slots).slots - (llring_init slots).data.length = slots := by
    simp [llring_init]
  rw [hinit] at h2 h3
  have h2a : (migrate old.data (llring_init slots)).1.data = old.data.take slots := by
    rw [h2]
    simp [llring_init]
  rw [hres]
  refine ⟨rfl, (migrate old.data (llring_init slots)).1, rfl, h2a, h3, ?_, ?_⟩
  · intro hle
    exact ⟨by rw [h2a, List.take_of_length_le hle],
      by rw [h3, List.drop_eq_nil_of_le hle]⟩
  · intro hlt
    rw [h3, List.length_drop]

/-- C3 witness: shrinking a ring holding three handles to capacity 2 keeps
the two oldest and frees the newest one. -/
theorem c3_resize_migration_witness :
    shrinkModule.queue_ = some { slots := 4, data := [⟨0, 1⟩, ⟨1, 2⟩, ⟨2, 3⟩] } ∧
    (Queue.Resize true true shrinkModule 2).2.1 = 0 ∧
    (Queue.Resize true true shrinkModule 2).2.2 = [⟨2, 3⟩] := by
  have h := c3_resize_migration shrinkModule
    { slots := 4, data := [⟨0, 1⟩, ⟨1, 2⟩, ⟨2, 3⟩] } 2 rfl
  obtain ⟨hz, newq, hk, hdata, hfree, h5, h6⟩ := h
  exact ⟨rfl, hz, hfree.trans (by decide)⟩

/-- C4: if allocation or ring initialization fails during Resize, a negative
failure code is returned and the module state — the active ring, its contents,
and every other member — is completely unchanged, and nothing is freed. -/
theorem c4_resize_failure_atomic (allocOk initOk : Bool) (m : QueueModule) (slots : Nat)
    (h : allocOk = false ∨ initOk = false) :
    (Queue.Resize allocOk initOk m slots).1 = m ∧
    (Queue.Resize allocOk initOk m slots).2.1 < 0 ∧
    (Queue.Resize allocOk initOk m slots).2.2 = [] := by
  rcases h with h | h
  · subst h
    exact ⟨rfl, show -ENOMEM < 0 by decide, rfl⟩
  · subst h
    cases allocOk
    · exact ⟨rfl, show -ENOMEM < 0 by decide, rfl⟩
    · exact ⟨rfl, show -EINVAL < 0 by decide, rfl⟩

/-- C4 witness: a failing allocation during resize of the freshly constructed
module leaves the state unchanged and reports a negative code. -/
theorem c4_resize_failure_atomic_witness :
    (Queue.Resize false false QueueCtor 8).1 = QueueCtor ∧
    (Queue.Resize false false QueueCtor 8).2.1 < 0 := by
  have h := c4_resize_failure_atomic false false QueueCtor 8 (Or.inl rfl)
  exact ⟨h.1, h.2.1⟩

/-- C5: RunTask calls run_next_module exactly once when the dequeued count is
nonzero and not at all when it is zero; on an empty ring it returns
{packet_count = 0, bit_count = 0} with no hand-off. -/
theorem c5_handoff (r : LLRing) (prefetch : Bool) (burst : Nat) :
    ((Queue.RunTask r prefetch burst).2.2 =
      if 0 < (llring_sc_dequeue_burst r burst).2.length then
        some (llring_sc_dequeue_burst r burst).2 else none) ∧
    (r.data = [] →
      (Queue.RunTask r prefetch burst).2.1 = { packets := 0, bits := 0 } ∧
      (Queue.RunTask r prefetch burst).2.2 = none) := by
  constructor
  · rfl
  · intro h
    constructor
    · cases prefetch <;>
        simp [Queue.RunTask, llring_sc_dequeue_burst, h, sum_bytes_plain, sum_bytes_prefetch]
    · simp [Queue.RunTask, llring_sc_dequeue_burst, h]

/-- C5 witness: RunTask on an empty capacity-8 ring returns {0, 0} and makes
no hand-off call. -/
theorem c5_handoff_witness :
    (Queue.RunTask (llring_init 8) true 4).2.1 = { packets := 0, bits := 0 } ∧
    (Queue.RunTask (llring_init 8) true 4).2.2 = none :=
  (c5_handoff (llring_init 8) true 4).2 rfl

/-- C6: FIFO round trip — in any sequential interleaving of ProcessBatch and
RunTask starting from an empty ring, the accepted handles are exactly the
dequeued handles followed by the handles still buffered: dequeue order equals
acceptance order with no duplication and no loss. -/
theorem c6_fifo_roundtrip (cap : Nat) (ops : List Op) :
    (runTrace cap ops).accepted =
      (runTrace cap ops).dequeued ++ (runTrace cap ops).ring.data :=
  (runTrace_inv cap ops).2.2

/-- C7: set_size rejects a non-integer, out-of-range, or non-power-of-two
request with an error, before any allocation is attempted (the outcome is
independent of the allocation parameters) and with the module state
unchanged. -/
theorem c7_setsize_validation (allocOk initOk : Bool) (m : QueueModule) (arg : Snobj)
    (h : arg = Snobj.nonInt ∨ ∃ val : Nat, arg = Snobj.int val ∧
      (val < 4 ∨ 16384 < val ∨ ¬ ∃ k : Nat, val = 2 ^ k)) :
    (Queue.CommandSetSize allocOk initOk m arg).1 = m ∧
    (Queue.CommandSetSize allocOk initOk m arg).2.1 = [] ∧
    ∃ e : SnErr, (Queue.CommandSetSize allocOk initOk m arg).2.2 = some e := by
  rcases h with h | ⟨val, rfl, hbad⟩
  · subst h
    exact ⟨rfl, rfl, _, rfl⟩
  · by_cases hr : val < 4 ∨ 16384 < val
    · simp only [Queue.CommandSetSize]
      rw [if_pos hr]
      exact ⟨rfl, rfl, _, rfl⟩
    · have hpow : ¬ ∃ k : Nat, val = 2 ^ k := by
        rcases hbad with h1 | h1 | h1
        · exact absurd (Or.inl h1) hr
        · exact absurd (Or.inr h1) hr
        · exact h1
      have hand : val &&& (val - 1) ≠ 0 := by
        intro h0
        exact hpow (pow_of_and_pred_zero val (by omega) h0)
      simp only [Queue.CommandSetSize]
      rw [if_neg hr, if_pos hand]
      exact ⟨rfl, rfl, _, rfl⟩

/-- C7 witness: set_size(3) is rejected and the prior state stays in
effect. -/
theorem c7_setsize_validation_witness :
    (Queue.CommandSetSize true true QueueCtor (Snobj.int 3)).1 = QueueCtor ∧
    ∃ e : SnErr, (Queue.CommandSetSize true true QueueCtor (Snobj.int 3)).2.2 = some e := by
  have h := c7_setsize_validation true true QueueCtor (Snobj.int 3)
    (Or.inr ⟨3, rfl, Or.inl (by decide)⟩)
  exact ⟨h.1, h.2.2⟩

/-- C8: for every capacity C (a power of two in [4, 16384]) and every
sequential sequence of enqueue/dequeue operations, the ring's occupancy stays
in [0, C] (occupancy is a natural number, so it can never go negative). -/
theorem c8_occupancy_bounded (cap : Nat) (ops : List Op)
    (h4 : 4 ≤ cap) (h16 : cap ≤ 16384) (hpow : ∃ k : Nat, cap = 2 ^ k) :
    (runTrace cap ops).ring.data.length ≤ cap :=
  (runTrace_inv cap ops).2.1

/-- C8 witness: capacity 4 with an overflowing enqueue followed by a dequeue
keeps occupancy within [0, 4]. -/
theorem c8_occupancy_bounded_witness :
    4 ≤ 4 ∧ (4 : Nat) ≤ 16384 ∧ ((4 : Nat) = 2 ^ 2) ∧
    (runTrace 4 [Op.enq batch6, Op.run 2]).ring.data.length ≤ 4 :=
  ⟨by decide, by decide, by decide,
    c8_occupancy_bounded 4 [Op.enq batch6, Op.run 2] (by decide) (by decide) ⟨2, by decide⟩⟩

/-- C9: the prefetch flag does not affect functional results — RunTask with
prefetch enabled returns exactly the same ring, statistics, and hand-off as
with prefetch disabled. -/
theorem c9_prefetch_equiv (r : LLRing) (burst : Nat) :
    Queue.RunTask r true burst = Queue.RunTask r false burst := by
  simp [Queue.RunTask, sum_bytes_prefetch_eq]

/-- C10: Deinit dereferences queue_ unconditionally, so it is only
well-defined when a ring was created: after a construction followed by an
Init whose task registration fails (or whose burst argument is invalid),
queue_ is still null and Deinit is undefined (`none`); on a non-null ring it
frees exactly the buffered handles. -/
theorem c10_deinit_requires_ring (allocOk initOk : Bool)
    (burstArg sizeArg : Option Snobj) (pf : Bool) :
    (Queue.Init false allocOk initOk burstArg sizeArg pf QueueCtor).1.queue_ = none ∧
    Queue.Deinit
      (Queue.Init false allocOk initOk burstArg sizeArg pf QueueCtor).1.queue_ = none ∧
    (Queue.Init true allocOk initOk (some Snobj.nonInt) sizeArg pf QueueCtor).1.queue_ =
      none ∧
    ∀ q : LLRing, Queue.Deinit (some q) = some q.data :=
  ⟨rfl, rfl, rfl, fun _ => rfl⟩

end BessQueue
